import Mathlib

/-!
Verification of the upload-scheduling queue specification and the
surrounding tooling of the repository.

The repository's `src/` holds the tooling binaries (benchmark harness,
target discovery, page-trace analysis). The upload queue itself is part of
the repository's `pageserver` crate, which is not among the provided source
files; its behaviour is modelled from the specification, as marked on each
definition. The tooling (`targets.rs`, `page_trace.rs`) is embedded
directly from the source.
-/

namespace Neon

/-! ## Data model (spec section 3, and the shapes visible in src/upload_queue.rs) -/

/-- Layer names are opaque identifiers compared for equality; modelled as
naturals. -/
abbrev LayerName := Nat

/-- The `LayerFileMetadata { shard, generation, file_size }` record, identifying the
physical remote object (src/upload_queue.rs lines 65-69). -/
structure LayerFileMetadata where
  shard : Nat
  generation : Nat
  file_size : Nat
deriving Repr, DecidableEq

/-- A Manifest Snapshot (`IndexPart`): the mapping of layer name to metadata
plus engine-owned timeline metadata (spec section 3; src/upload_queue.rs
lines 71-73 shows `layer_metadata.insert`). -/
structure ManifestSnapshot where
  layer_metadata : List (LayerName × LayerFileMetadata)
  timeline_metadata : Nat
deriving Repr, DecidableEq

/-- The payload of a `Delete` operation (src/upload_queue.rs lines 80-82). -/
structure Delete where
  layers : List (LayerName × LayerFileMetadata)
deriving Repr, DecidableEq

/-- The `UploadOp` tagged union of desired remote-storage changes
(spec section 3; src/upload_queue.rs lines 80, 101-103). -/
inductive UploadOp where
  | uploadLayer (name : LayerName) (metadata : LayerFileMetadata)
  | uploadMetadata (uploaded : ManifestSnapshot)
  | delete (d : Delete)
deriving Repr, DecidableEq

/-- An `UploadTask`: one dispatched in-flight unit of work
(src/upload_queue.rs lines 91-96). The concurrently-observable atomic
retry counter is modelled as a plain natural, since scheduling decisions
never read it. -/
structure UploadTask where
  task_id : Nat
  retries : Nat
  op : UploadOp
  coalesced_ops : List UploadOp
deriving Repr, DecidableEq

/-! ## page_trace.rs -/

/-- A page-trace event; only its compact key matters to the statistics. -/
abbrev PageTraceEvent := Nat

/-- The error outcomes of `page_trace::main`: the max_events guard firing
(with the number of events already deserialized), or a deserialization
failure. -/
inductive PageTraceErr where
  | limitExceeded (processed : Nat)
deriving Repr, DecidableEq

/-- The read loop of `page_trace::main` (src/page_trace.rs lines 34-49):
before each read attempt, bail out if the number of deserialized events has
reached `maxEvents`; otherwise read the next event (here: take it from the
remaining well-formed `file`) or stop at end of file. -/
def readLoop (maxEvents : Nat) (events : List PageTraceEvent) :
    List PageTraceEvent → Except PageTraceErr (List PageTraceEvent)
  | [] =>
    if events.length ≥ maxEvents then .error (.limitExceeded events.length)
    else .ok events
  | e :: rest =>
    if events.length ≥ maxEvents then .error (.limitExceeded events.length)
    else readLoop maxEvents (events ++ [e]) rest

/-- Count the reads per key, as `reads_by_key` does
(src/page_trace.rs lines 51-65), as an association list. -/
def countByKey (events : List PageTraceEvent) : List (Nat × Nat) :=
  events.foldl
    (fun acc k =>
      if acc.any (fun p => p.1 = k) then
        acc.map (fun p => if p.1 = k then (p.1, p.2 + 1) else p)
      else acc ++ [(k, 1)])
    []

/-- The `page_trace::main` entry point on a trace file of well-formed events
(src/page_trace.rs lines 30-91): run the bounded read loop, then compute
the per-key read statistics. -/
def pageTraceMain (maxEvents : Nat) (file : List PageTraceEvent) :
    Except PageTraceErr (List (Nat × Nat)) :=
  match readLoop maxEvents [] file with
  | .error e => .error e
  | .ok events => .ok (countByKey events)

/-! ## targets.rs -/

/-- Tenant-timeline identifiers, modelled as naturals with their total
order (the Rust type is `TenantTimelineId` with its derived `Ord`). -/
abbrev TenantTimelineId := Nat

/-- The argument struct of `targets::discover` (src/targets.rs lines 7-15). -/
structure TargetSpec where
  limit_to_first_n_targets : Option Nat
  targets : Option (List TenantTimelineId)

/-- The `targets::discover` routine (src/targets.rs lines 17-50): use the explicit
targets when provided, otherwise the timelines reported by the management
API (passed in as `apiTimelines`, the external collaborator's answer); when
a limit n is requested, sort, truncate to n, and fail if fewer than n
remain. -/
def discover (apiTimelines : List TenantTimelineId) (spec : TargetSpec) :
    Except String (List TenantTimelineId) :=
  let timelines :=
    match spec.targets with
    | some ts => ts
    | none => apiTimelines
  match spec.limit_to_first_n_targets with
  | some limit =>
    let sorted := timelines.insertionSort (· ≤ ·)
    let truncated := sorted.take limit
    if truncated.length < limit then
      .error "Insufficient timelines for requested limit"
    else
      .ok truncated
  | none => .ok timelines

/-- The list of timelines `discover` operates on: the explicit targets
when provided, otherwise the timelines reported by the management API
(src/targets.rs lines 21-27). -/
def effectiveTimelines (apiTimelines : List TenantTimelineId)
    (spec : TargetSpec) : List TenantTimelineId :=
  match spec.targets with
  | some ts => ts
  | none => apiTimelines

/-! ## Upload queue — conflict rules and readiness

Modelled from the spec: the scheduling logic of the `pageserver` crate's
upload queue (`next_ready`, enqueue, completion, lifecycle) is not among
the provided source files; only its benchmark harness and data shapes are
(src/upload_queue.rs). The definitions below follow spec sections 3-4.6. -/

/-- The layer names an Operation touches: the uploaded layer's name, the
names referenced by an uploaded snapshot, or the names being deleted
(spec section 4.3, "Operations touching disjoint layer names never
conflict"). -/
def UploadOp.touchedNames : UploadOp → List LayerName
  | .uploadLayer name _ => [name]
  | .uploadMetadata uploaded => uploaded.layer_metadata.map Prod.fst
  | .delete d => d.layers.map Prod.fst

/-- Modelled from the spec: the conflict relation of section 4.3. Two
Operations conflict exactly when they touch a common layer name; this is
the minimal policy consistent with the stated rules — `Delete(L)` conflicts
with an in-progress `UploadLayer(L)` and with an `UploadMetadata` whose
snapshot still references L, `UploadMetadata(S)` conflicts with in-progress
layer work on names S references, and disjoint names never conflict. -/
def conflictsB (a b : UploadOp) : Bool :=
  a.touchedNames.any (fun n => b.touchedNames.contains n)

/-- Whether a pending Operation conflicts with an in-progress Task: with
its primary operation or with any of its coalesced operations. -/
def opConflictsTask (op : UploadOp) (t : UploadTask) : Bool :=
  conflictsB op t.op || t.coalesced_ops.any (fun c => conflictsB op c)

/-- Readiness (spec section 4.3): an Operation is ready when it is not in
conflict with any Task currently in the In-Progress Table. -/
def isReady (op : UploadOp) (inprogress : List UploadTask) : Bool :=
  inprogress.all (fun t => !(opConflictsTask op t))

/-- The Initialized upload queue's state (spec section 3): pending
Operations in order, the In-Progress Table, the task-id counter, the
current Manifest Snapshot together with the task id of the metadata upload
that produced it (`none` while the initial snapshot is still current), and
the concurrency limit. -/
structure QueueState where
  pending : List UploadOp
  inprogress : List UploadTask
  next_task_id : Nat
  manifest : ManifestSnapshot
  manifestTaskId : Option Nat
  concurrency_limit : Nat
deriving Repr, DecidableEq

/-- Modelled from the spec: `next_ready`/`promote_next` readiness scan
(spec section 4.3). The Pending Queue is considered from the front; the
head is returned when ready, and if the head is blocked no later Operation
is returned — promotion preserves submission order. -/
def next_ready (st : QueueState) : Option UploadOp :=
  match st.pending with
  | [] => none
  | op :: _ => if isReady op st.inprogress then some op else none

/-- Whether an Operation is a Delete (used by coalescing). -/
def UploadOp.isDelete : UploadOp → Bool
  | .delete _ => true
  | _ => false

/-- Modelled from the spec: coalescing (spec section 4.4). When the
promoted Operation is a Delete, fold the following run of ready Deletes
into the same Task as `coalesced_ops`; the remaining pending queue drops
exactly that run. -/
def coalesceOps (op : UploadOp) (rest : List UploadOp)
    (inprogress : List UploadTask) : List UploadOp × List UploadOp :=
  match op with
  | .delete _ =>
    (rest.takeWhile (fun o => o.isDelete && isReady o inprogress),
     rest.dropWhile (fun o => o.isDelete && isReady o inprogress))
  | _ => ([], rest)

/-- The Task built for a promoted head `op`: a freshly allocated id, a
zero retry counter, and the coalesced run folded in (spec section 4.3 on
success). -/
def promotedTask (st : QueueState) (op : UploadOp) (rest : List UploadOp) :
    UploadTask :=
  { task_id := st.next_task_id, retries := 0,
    op := op, coalesced_ops := (coalesceOps op rest st.inprogress).1 }

/-- Modelled from the spec: promotion (spec section 4.3 on success). If
the head of the Pending Queue is ready it is removed, wrapped (with
coalesced siblings) into a new Task with a freshly allocated id, inserted
into In-Progress, and returned; otherwise nothing is promoted and the
state is unchanged. -/
def promote (st : QueueState) : Option (UploadTask × QueueState) :=
  match st.pending with
  | [] => none
  | op :: rest =>
    if isReady op st.inprogress then
      some (promotedTask st op rest,
        { st with pending := (coalesceOps op rest st.inprogress).2,
                  inprogress := st.inprogress ++ [promotedTask st op rest],
                  next_task_id := st.next_task_id + 1 })
    else none

/-- Modelled from the spec: enqueue (spec section 4.2, the FIFO producer
path): append the Operation at the tail of the Pending Queue. -/
def enqueueOp (st : QueueState) (op : UploadOp) : QueueState :=
  { st with pending := st.pending ++ [op] }

/-- The task id below which the current Manifest Snapshot originates, as a
natural measure: 0 for the initial snapshot, `id + 1` for the snapshot of
metadata task `id`. -/
def metaMeasure (st : QueueState) : Nat :=
  match st.manifestTaskId with
  | none => 0
  | some k => k + 1

/-- Modelled from the spec: completion of a Task reported successful
(spec section 4.5). The Task leaves In-Progress; if its primary operation
is `UploadMetadata(S)` and its task id is the newest among completed
metadata tasks so far, Manifest State advances to S. -/
def completeTask (st : QueueState) (t : UploadTask) : QueueState :=
  match t.op with
  | .uploadMetadata uploaded =>
    if metaMeasure st ≤ t.task_id then
      { st with
        inprogress := st.inprogress.filter (fun u => u.task_id != t.task_id),
        manifest := uploaded, manifestTaskId := some t.task_id }
    else
      { st with
        inprogress := st.inprogress.filter (fun u => u.task_id != t.task_id) }
  | _ =>
    { st with
      inprogress := st.inprogress.filter (fun u => u.task_id != t.task_id) }

/-- Modelled from the spec: the freshly Initialized state (spec section 3
lifecycle), holding the bootstrap Manifest Snapshot and the starting
task-id counter, with empty Pending Queue and In-Progress Table. -/
def initState (index : ManifestSnapshot) (startId lim : Nat) : QueueState :=
  { pending := [], inprogress := [], next_task_id := startId,
    manifest := index, manifestTaskId := none, concurrency_limit := lim }

/-! ## Upload queue — lifecycle -/

/-- Errors of the upload queue surface (spec section 7 taxonomy, the
lifecycle part). -/
inductive QueueError where
  | notInitialized
  | alreadyInitialized
  | notAcceptingWork
deriving Repr, DecidableEq

/-- Modelled from the spec: the upload queue lifecycle states
(spec section 4.1): Uninitialized, Initialized, ShuttingDown, Shutdown. -/
inductive UploadQueue where
  | uninitialized
  | initialized (st : QueueState)
  | shuttingDown (st : QueueState)
  | stopped
deriving Repr, DecidableEq

/-- Modelled from the spec: initialization
(`initialize_with_current_remote_index_part`, called at
src/upload_queue.rs line 77). Accepted exactly once, on an Uninitialized
queue; any later attempt fails with `AlreadyInitialized` and returns the
queue unchanged. The pair is (reported error, resulting queue). -/
def initialize_with_current_remote_index_part (q : UploadQueue)
    (index : ManifestSnapshot) (startId lim : Nat) :
    Option QueueError × UploadQueue :=
  match q with
  | .uninitialized => (none, .initialized (initState index startId lim))
  | q => (some .alreadyInitialized, q)

/-- Modelled from the spec: shutdown request (spec sections 4.1 and 4.6).
All not-yet-promoted pending Operations are discarded and the queue enters
ShuttingDown until its in-progress Tasks drain (immediately Shutdown when
none are in flight); repeated requests while ShuttingDown or Shutdown are
no-ops. -/
def shutdown (q : UploadQueue) : UploadQueue :=
  match q with
  | .uninitialized => .stopped
  | .initialized st =>
    if st.inprogress.isEmpty then .stopped
    else .shuttingDown { st with pending := [] }
  | .shuttingDown st => .shuttingDown st
  | .stopped => .stopped

/-- Whether two Tasks are mutually conflicting: some operation of one
(primary or coalesced) conflicts with some operation of the other. -/
def taskConflicts (a b : UploadTask) : Bool :=
  (a.op :: a.coalesced_ops).any
    (fun x => (b.op :: b.coalesced_ops).any (fun y => conflictsB x y))

/-! ## Upload queue — transition system -/

/-- Modelled from the spec: the scheduling steps available on an
Initialized queue (spec sections 4.2-4.6): enqueue at the tail, promotion
(only called while below the concurrency limit, spec section 4.6), and
successful completion of an in-progress Task, reported in any order. -/
inductive QStep : QueueState → QueueState → Prop
  | enqueue {st : QueueState} (op : UploadOp) : QStep st (enqueueOp st op)
  | promoteStep {st st' : QueueState} {t : UploadTask}
      (hcap : st.inprogress.length < st.concurrency_limit)
      (hp : promote st = some (t, st')) : QStep st st'
  | complete {st : QueueState} (t : UploadTask)
      (hmem : t ∈ st.inprogress) : QStep st (completeTask st t)

/-- The queue states reachable from a freshly Initialized queue by
scheduling steps. -/
inductive QReachable : QueueState → Prop
  | init (index : ManifestSnapshot) (startId lim : Nat) :
      QReachable (initState index startId lim)
  | step {st st' : QueueState} :
      QReachable st → QStep st st' → QReachable st'

/-! ## Upload queue — observable effect and the sequential reference -/

/-- The effect of one Operation on the remote layer-object set: an upload
makes the layer present, a delete removes its layers, a metadata upload
rewrites the index object and leaves layer objects alone. -/
def applyOpObjects (objs : List LayerName) : UploadOp → List LayerName
  | .uploadLayer name _ => if objs.contains name then objs else objs ++ [name]
  | .uploadMetadata _ => objs
  | .delete d => objs.filter (fun n => !(d.layers.map Prod.fst).contains n)

/-- The effect of one Operation on the durable Manifest Snapshot: only a
metadata upload replaces it. -/
def applyOpManifest (m : ManifestSnapshot) : UploadOp → ManifestSnapshot
  | .uploadMetadata uploaded => uploaded
  | _ => m

/-- Sequential reference semantics (the spec side of the refinement claim,
spec section 8): apply the Operations one at a time, in order, to the pair
(Manifest Snapshot, remote object set). -/
def seqRun (s : ManifestSnapshot × List LayerName) (ops : List UploadOp) :
    ManifestSnapshot × List LayerName :=
  ops.foldl (fun s op => (applyOpManifest s.1 op, applyOpObjects s.2 op)) s

/-- The applied effect of a Task on the remote object set: its primary and
coalesced operations in their original relative order (spec section 4.4). -/
def applyTaskObjects (objs : List LayerName) (t : UploadTask) : List LayerName :=
  (t.op :: t.coalesced_ops).foldl applyOpObjects objs

/-- Drain loop with explicit fuel: repeatedly promote the next ready
Operation and at once apply its completion (no concurrent promotion),
until nothing promotes. -/
def drainAux : Nat → QueueState → List LayerName → QueueState × List LayerName
  | 0, st, objs => (st, objs)
  | fuel + 1, st, objs =>
    match promote st with
    | none => (st, objs)
    | some (t, st') => drainAux fuel (completeTask st' t) (applyTaskObjects objs t)

/-- Drain the queue to completion: the pending-queue length bounds the
number of promotions, since each consumes at least the head. -/
def drain (st : QueueState) (objs : List LayerName) :
    QueueState × List LayerName :=
  drainAux st.pending.length st objs

/-- Enqueue a sequence of Operations in order. -/
def enqueueAll (st : QueueState) (ops : List UploadOp) : QueueState :=
  ops.foldl enqueueOp st

/-! ## Concrete fixtures

The benchmark scenario of src/upload_queue.rs lines 48-110: layer 0 is in
the index, layer 1 is being deleted by the in-progress tasks, and an index
upload sits at the head of the pending queue. -/

/-- The layer metadata of the benchmark (src/upload_queue.rs lines 65-69). -/
def benchMetadata : LayerFileMetadata :=
  { shard := 1, generation := 1, file_size := 0 }

/-- The benchmark index, holding layer 0 (src/upload_queue.rs lines 71-73). -/
def benchIndex : ManifestSnapshot :=
  { layer_metadata := [(0, benchMetadata)], timeline_metadata := 0 }

/-- The benchmark delete of layer 1 (src/upload_queue.rs lines 80-82). -/
def benchDelete : UploadOp := .delete { layers := [(1, benchMetadata)] }

/-- One in-progress delete Task of the benchmark
(src/upload_queue.rs lines 88-98). -/
def benchDeleteTask (i : Nat) : UploadTask :=
  { task_id := i, retries := 0, op := benchDelete, coalesced_ops := [] }

/-- The benchmark queue state with `n` in-progress delete Tasks and the
index upload at the head of the pending queue
(src/upload_queue.rs lines 88-109). -/
def benchQueue (n : Nat) : QueueState :=
  { pending := [.uploadMetadata benchIndex],
    inprogress := (List.range n).map benchDeleteTask,
    next_task_id := n, manifest := benchIndex, manifestTaskId := none,
    concurrency_limit := n + 1 }

/-- An in-progress upload of layer 1, blocking a delete of layer 1. -/
def blockedTask : UploadTask :=
  { task_id := 0, retries := 0, op := .uploadLayer 1 benchMetadata,
    coalesced_ops := [] }

/-- A queue whose head (a delete of layer 1) is blocked by `blockedTask`
while a later pending operation (an upload of layer 9) is unblocked. -/
def blockedQueue : QueueState :=
  { pending := [.delete { layers := [(1, benchMetadata)] },
                .uploadLayer 9 benchMetadata],
    inprogress := [blockedTask],
    next_task_id := 1, manifest := benchIndex, manifestTaskId := none,
    concurrency_limit := 10 }

/-- A fresh snapshot distinct from `benchIndex`. -/
def freshIndex : ManifestSnapshot :=
  { layer_metadata := [], timeline_metadata := 5 }

/-- An in-progress metadata-upload Task carrying `freshIndex`. -/
def metaTask : UploadTask :=
  { task_id := 3, retries := 0, op := .uploadMetadata freshIndex,
    coalesced_ops := [] }

/-- A queue with `metaTask` in flight, still holding `benchIndex`. -/
def metaQueue : QueueState :=
  { pending := [], inprogress := [metaTask], next_task_id := 4,
    manifest := benchIndex, manifestTaskId := none, concurrency_limit := 2 }

/-! ## Lemmas: page_trace read loop -/

/-- Once the deserialized-event count has reached the limit, the loop
fails regardless of what remains in the file. -/
theorem readLoop_at_limit {m : Nat} (evs : List PageTraceEvent)
    (h : m ≤ evs.length) (file : List PageTraceEvent) :
    readLoop m evs file = .error (.limitExceeded evs.length) := by
  cases file <;> simp [readLoop, h]

/-- General shape of the read loop: starting below the limit, it succeeds
with all events exactly when the total stays below the limit, and
otherwise fails after deserializing exactly `m` events. -/
theorem readLoop_spec (m : Nat) :
    ∀ (file evs : List PageTraceEvent), evs.length < m →
      readLoop m evs file =
        if evs.length + file.length < m then .ok (evs ++ file)
        else .error (.limitExceeded m) := by
  intro file
  induction file with
  | nil =>
    intro evs h
    simp [readLoop, Nat.not_le.mpr h, h]
  | cons e rest ih =>
    intro evs h
    rw [readLoop, if_neg (Nat.not_le.mpr h)]
    by_cases h2 : (evs ++ [e]).length < m
    · rw [ih _ h2]
      simp only [List.length_append, List.length_cons, List.length_nil] at h2 ⊢
      have hc : evs.length + 1 + rest.length < m ↔
          evs.length + (rest.length + 1) < m := by omega
      simp [List.append_assoc, hc]
    · simp only [List.length_append, List.length_cons, List.length_nil] at h2
      have hm : m = evs.length + 1 := by omega
      rw [readLoop_at_limit (evs ++ [e]) (by simp [hm]) rest]
      have : ¬ evs.length + (rest.length + 1) < m := by omega
      simp [this, hm]

/-! ## Lemmas: upload-queue conflict relation -/

/-- Two operations conflict exactly when they touch a common layer name. -/
theorem conflictsB_iff (a b : UploadOp) :
    conflictsB a b = true ↔
      ∃ n, n ∈ a.touchedNames ∧ n ∈ b.touchedNames := by
  simp [conflictsB, List.any_eq_true]

/-- The conflict relation is symmetric. -/
theorem conflictsB_symm (a b : UploadOp) : conflictsB a b = conflictsB b a := by
  cases h1 : conflictsB a b <;> cases h2 : conflictsB b a <;> try rfl
  · obtain ⟨n, hn1, hn2⟩ := (conflictsB_iff b a).mp h2
    have := (conflictsB_iff a b).mpr ⟨n, hn2, hn1⟩
    rw [h1] at this
    exact absurd this (by simp)
  · obtain ⟨n, hn1, hn2⟩ := (conflictsB_iff a b).mp h1
    have := (conflictsB_iff b a).mpr ⟨n, hn2, hn1⟩
    rw [h2] at this
    exact absurd this (by simp)

/-! ## C10 — page_trace max_events limit -/

/-- C10: `page_trace::main` errors on every trace file with at least
`max_events` events; the limit check fires when the event count reaches
`max_events` before attempting the next read, so a file with exactly
`max_events` well-formed events is rejected even though all of its events
(exactly `max_events` of them) were deserialized, while a file with fewer
events is processed to completion (all events, in order, reaching the
statistics stage). -/
theorem pageTraceMain_limit (m : Nat) (file : List PageTraceEvent) :
    pageTraceMain m file =
      if file.length < m then .ok (countByKey file)
      else .error (.limitExceeded m) := by
  match m with
  | 0 =>
    have h0 : readLoop 0 ([] : List PageTraceEvent) file =
        .error (.limitExceeded 0) := readLoop_at_limit [] (by simp) file
    simp [pageTraceMain, h0]
  | k + 1 =>
    have h := readLoop_spec (k + 1) file [] (by simp)
    simp only [List.length_nil, Nat.zero_add, List.nil_append] at h
    rw [pageTraceMain, h]
    by_cases hlt : file.length < k + 1 <;> simp [hlt]

/-! ## C9 — targets::discover with a limit -/

/-- Evaluation of `discover` with a limit, written through `effectiveTimelines`. -/
theorem discover_limit_eq (apiTimelines : List TenantTimelineId)
    (sp : TargetSpec) (n : Nat) (hn : sp.limit_to_first_n_targets = some n) :
    discover apiTimelines sp =
      if (((effectiveTimelines apiTimelines sp).insertionSort (· ≤ ·)).take n).length < n
      then .error "Insufficient timelines for requested limit"
      else .ok (((effectiveTimelines apiTimelines sp).insertionSort (· ≤ ·)).take n) := by
  unfold discover effectiveTimelines
  rw [hn]

/-- C9: for every `discover` call with `limit_to_first_n_targets = some n`,
if fewer than n timelines are available the call errors; otherwise it
returns exactly the n smallest timelines in ascending sorted order (a
sorted length-n list that, together with some remainder it is pointwise
below, is a permutation of the available timelines); and the result is
deterministic — invariant under permutation of the supplied or discovered
timelines. -/
theorem discover_limit_spec (apiTimelines : List TenantTimelineId)
    (sp : TargetSpec) (n : Nat)
    (hn : sp.limit_to_first_n_targets = some n) :
    ((effectiveTimelines apiTimelines sp).length < n →
      (discover apiTimelines sp).isOk = false) ∧
    (n ≤ (effectiveTimelines apiTimelines sp).length →
      ∃ l rest, discover apiTimelines sp = .ok l ∧ l.length = n ∧
        l.Sorted (· ≤ ·) ∧
        (l ++ rest).Perm (effectiveTimelines apiTimelines sp) ∧
        ∀ x ∈ l, ∀ y ∈ rest, x ≤ y) ∧
    (∀ (api2 : List TenantTimelineId) (sp2 : TargetSpec),
      sp2.limit_to_first_n_targets = some n →
      (effectiveTimelines api2 sp2).Perm (effectiveTimelines apiTimelines sp) →
      discover api2 sp2 = discover apiTimelines sp) := by
  set ts := effectiveTimelines apiTimelines sp with hts
  have hsortlen : (ts.insertionSort (· ≤ ·)).length = ts.length :=
    (List.perm_insertionSort _ ts).length_eq
  refine ⟨?_, ?_, ?_⟩
  · intro hlt
    rw [discover_limit_eq apiTimelines sp n hn, ← hts]
    have : ((ts.insertionSort (· ≤ ·)).take n).length < n := by
      rw [List.length_take, hsortlen]
      omega
    rw [if_pos this]
    rfl
  · intro hge
    refine ⟨(ts.insertionSort (· ≤ ·)).take n,
            (ts.insertionSort (· ≤ ·)).drop n, ?_, ?_, ?_, ?_, ?_⟩
    · rw [discover_limit_eq apiTimelines sp n hn, ← hts]
      have : ¬ ((ts.insertionSort (· ≤ ·)).take n).length < n := by
        rw [List.length_take, hsortlen]
        omega
      rw [if_neg this]
    · rw [List.length_take, hsortlen]
      omega
    · exact (List.sorted_insertionSort _ ts).sublist (List.take_sublist _ _)
    · rw [List.take_append_drop]
      exact List.perm_insertionSort _ ts
    · intro x hx y hy
      have hsorted : ((ts.insertionSort (· ≤ ·)).take n ++
          (ts.insertionSort (· ≤ ·)).drop n).Sorted (· ≤ ·) := by
        rw [List.take_append_drop]
        exact List.sorted_insertionSort _ ts
      exact (List.pairwise_append.mp hsorted).2.2 x hx y hy
  · intro api2 sp2 hn2 hperm
    rw [discover_limit_eq api2 sp2 n hn2,
        discover_limit_eq apiTimelines sp n hn, ← hts]
    have heq : (effectiveTimelines api2 sp2).insertionSort (· ≤ ·) =
        ts.insertionSort (· ≤ ·) := by
      refine List.eq_of_perm_of_sorted ?_
        (List.sorted_insertionSort _ _) (List.sorted_insertionSort _ _)
      exact ((List.perm_insertionSort _ _).trans hperm).trans
        (List.perm_insertionSort _ ts).symm
    rw [heq]

/-- Witness for C9 at a concrete input: three timelines supplied out of
order with a limit of two. -/
theorem discover_limit_spec_witness :
    ∃ l rest, discover [] ⟨some 2, some [30, 10, 20]⟩ = .ok l ∧
      l.length = 2 ∧ l.Sorted (· ≤ ·) ∧
      (l ++ rest).Perm (effectiveTimelines [] ⟨some 2, some [30, 10, 20]⟩) ∧
      ∀ x ∈ l, ∀ y ∈ rest, x ≤ y :=
  (discover_limit_spec [] ⟨some 2, some [30, 10, 20]⟩ 2 rfl).2.1 (by decide)

/-! ## Lemmas: readiness and promotion -/

/-- Readiness unfolded: no conflict with any in-progress Task. -/
theorem isReady_iff (op : UploadOp) (ip : List UploadTask) :
    isReady op ip = true ↔ ∀ t ∈ ip, opConflictsTask op t = false := by
  simp [isReady, List.all_eq_true]

/-- Non-conflict with a Task unfolded: no conflict with its primary nor
with any coalesced operation. -/
theorem opConflictsTask_eq_false_iff (op : UploadOp) (t : UploadTask) :
    opConflictsTask op t = false ↔
      conflictsB op t.op = false ∧
      ∀ c ∈ t.coalesced_ops, conflictsB op c = false := by
  simp [opConflictsTask]

/-- Inversion of a successful promotion: the head was ready, the returned
Task wraps it with the coalesced run, and the new state drops exactly the
promoted operations, appends the Task, and bumps the id counter. -/
theorem promote_inv {st st' : QueueState} {t : UploadTask}
    (hp : promote st = some (t, st')) :
    ∃ op rest, st.pending = op :: rest ∧ isReady op st.inprogress = true ∧
      t = promotedTask st op rest ∧
      st' = { st with pending := (coalesceOps op rest st.inprogress).2,
                      inprogress := st.inprogress ++ [t],
                      next_task_id := st.next_task_id + 1 } := by
  unfold promote at hp
  split at hp
  · exact absurd hp (by simp)
  next op rest heq =>
    split at hp
    next hr =>
      rw [Option.some.injEq, Prod.mk.injEq] at hp
      refine ⟨op, rest, heq, hr, hp.1.symm, ?_⟩
      rw [← hp.2, hp.1]
    next hr => exact absurd hp (by simp)

/-- Every operation coalesced into a Task was itself ready at promotion
time. -/
theorem coalesced_ready {op : UploadOp} {rest : List UploadOp}
    {ip : List UploadTask} {c : UploadOp}
    (hc : c ∈ (coalesceOps op rest ip).1) : isReady c ip = true := by
  cases op <;> simp only [coalesceOps] at hc
  · exact absurd hc (List.not_mem_nil c)
  · exact absurd hc (List.not_mem_nil c)
  · have h := List.mem_takeWhile_imp hc
    simp only [Bool.and_eq_true] at h
    exact h.2

/-- Every operation coalesced into a Task is a Delete. -/
theorem coalesced_isDelete {op : UploadOp} {rest : List UploadOp}
    {ip : List UploadTask} {c : UploadOp}
    (hc : c ∈ (coalesceOps op rest ip).1) : c.isDelete = true := by
  cases op <;> simp only [coalesceOps] at hc
  · exact absurd hc (List.not_mem_nil c)
  · exact absurd hc (List.not_mem_nil c)
  · have h := List.mem_takeWhile_imp hc
    simp only [Bool.and_eq_true] at h
    exact h.1

/-- The coalesced run and the remaining pending queue partition the
operations behind the promoted head, in order. -/
theorem coalesceOps_append (op : UploadOp) (rest : List UploadOp)
    (ip : List UploadTask) :
    (coalesceOps op rest ip).1 ++ (coalesceOps op rest ip).2 = rest := by
  cases op <;> simp [coalesceOps, List.takeWhile_append_dropWhile]

/-- A Task freshly promoted conflicts with no Task already in progress:
each of its operations (primary and coalesced) was ready. -/
theorem promoted_task_no_conflict {st st' : QueueState} {t : UploadTask}
    (hp : promote st = some (t, st')) :
    ∀ u ∈ st.inprogress, taskConflicts u t = false := by
  obtain ⟨op, rest, hpend, hready, ht, hst⟩ := promote_inv hp
  intro u hu
  rw [taskConflicts]
  rw [Bool.eq_false_iff]
  intro hcontra
  rw [List.any_eq_true] at hcontra
  obtain ⟨x, hx, hy⟩ := hcontra
  rw [List.any_eq_true] at hy
  obtain ⟨y, hymem, hconf⟩ := hy
  have hyready : isReady y st.inprogress = true := by
    rcases List.mem_cons.mp hymem with hyop | hyco
    · subst ht
      subst hyop
      exact hready
    · subst ht
      exact coalesced_ready hyco
  have hnoconf := (isReady_iff y st.inprogress).mp hyready u hu
  rw [opConflictsTask_eq_false_iff] at hnoconf
  rcases List.mem_cons.mp hx with hxop | hxco
  · subst hxop
    rw [conflictsB_symm] at hconf
    rw [hnoconf.1] at hconf
    exact Bool.false_ne_true hconf
  · have := hnoconf.2 x hxco
    rw [conflictsB_symm] at hconf
    rw [this] at hconf
    exact Bool.false_ne_true hconf

/-! ## Lemmas: completion -/

/-- Completion removes exactly the completed Task from In-Progress and
touches neither the Pending Queue, the id counter, nor the concurrency
limit. -/
theorem completeTask_fields (st : QueueState) (t : UploadTask) :
    (completeTask st t).pending = st.pending ∧
    (completeTask st t).next_task_id = st.next_task_id ∧
    (completeTask st t).concurrency_limit = st.concurrency_limit ∧
    (completeTask st t).inprogress =
      st.inprogress.filter (fun u => u.task_id != t.task_id) := by
  unfold completeTask
  split
  · split <;> exact ⟨rfl, rfl, rfl, rfl⟩
  · exact ⟨rfl, rfl, rfl, rfl⟩

/-- Completion either leaves the Manifest State untouched, or the Task is
a metadata upload with a task id at least the held snapshot's originating
measure, and the snapshot advances to it. -/
theorem completeTask_manifest (st : QueueState) (t : UploadTask) :
    ((completeTask st t).manifest = st.manifest ∧
     (completeTask st t).manifestTaskId = st.manifestTaskId) ∨
    (∃ S, t.op = .uploadMetadata S ∧ metaMeasure st ≤ t.task_id ∧
      (completeTask st t).manifest = S ∧
      (completeTask st t).manifestTaskId = some t.task_id) := by
  unfold completeTask
  split
  next S heq =>
    split
    next hle => exact Or.inr ⟨S, heq, hle, rfl, rfl⟩
    next => exact Or.inl ⟨rfl, rfl⟩
  next => exact Or.inl ⟨rfl, rfl⟩

/-! ## C2 — promotion never conflicts with in-progress work -/

/-- C2: `promote_next()`/`next_ready()` never returns an Operation that
conflicts with any Task currently in the In-Progress Table (in particular
a `Delete(L)` is never returned while an `UploadLayer(L)` or an
`UploadMetadata` referencing L is in progress, since those pairs conflict),
and at every reachable queue state no two mutually conflicting Tasks are
simultaneously in progress. -/
theorem promote_never_conflicts :
    (∀ (st : QueueState) (op : UploadOp), next_ready st = some op →
      ∀ t ∈ st.inprogress, opConflictsTask op t = false) ∧
    (∀ st : QueueState, QReachable st →
      st.inprogress.Pairwise (fun a b => taskConflicts a b = false)) := by
  constructor
  · intro st op hn t ht
    unfold next_ready at hn
    split at hn
    · exact absurd hn (by simp)
    next hd rest heq =>
      split at hn
      next hr =>
        cases hn
        exact (isReady_iff _ st.inprogress).mp hr t ht
      next => exact absurd hn (by simp)
  · intro st h
    induction h with
    | init index startId lim => exact List.Pairwise.nil
    | step hreach hstep ih =>
      cases hstep with
      | enqueue op => exact ih
      | promoteStep hcap hp =>
        obtain ⟨op, rest, hpend, hready, ht, hst⟩ := promote_inv hp
        rw [hst]
        refine List.pairwise_append.mpr ⟨ih, List.pairwise_singleton _ _, ?_⟩
        intro a ha b hb
        rw [List.mem_singleton] at hb
        subst hb
        exact promoted_task_no_conflict hp a ha
      | complete t hmem =>
        rw [(completeTask_fields _ t).2.2.2]
        exact List.Pairwise.sublist (List.filter_sublist _) ih

/-- Witness for C2: on a queue with one in-progress delete of layer 1 and
a pending index upload referencing only layer 0, the returned index upload
conflicts with no in-progress Task; and the freshly initialized queue has
a pairwise-nonconflicting (empty) In-Progress Table. -/
theorem promote_never_conflicts_witness :
    opConflictsTask (.uploadMetadata benchIndex) (benchDeleteTask 0) = false ∧
    (initState benchIndex 0 4).inprogress.Pairwise
      (fun a b => taskConflicts a b = false) :=
  ⟨promote_never_conflicts.1 (benchQueue 1) (.uploadMetadata benchIndex)
      (by decide) (benchDeleteTask 0) (by decide),
   promote_never_conflicts.2 _ (QReachable.init benchIndex 0 4)⟩

/-! ## C6 — the concurrency bound -/

/-- C6: at every reachable state of the upload queue, the size of the
In-Progress Table never exceeds the configured concurrency limit — the
bound holds initially and is preserved by enqueue, promotion (which is
only performed below capacity) and completion. -/
theorem inprogress_bounded (st : QueueState) (h : QReachable st) :
    st.inprogress.length ≤ st.concurrency_limit := by
  induction h with
  | init index startId lim => exact Nat.zero_le _
  | step hreach hstep ih =>
    cases hstep with
    | enqueue op => exact ih
    | promoteStep hcap hp =>
      obtain ⟨op, rest, hpend, hready, ht, hst⟩ := promote_inv hp
      rw [hst]
      simpa using hcap
    | complete t hmem =>
      obtain ⟨-, -, hcl, hip⟩ := completeTask_fields _ t
      rw [hip, hcl]
      exact le_trans (List.length_filter_le _ _) ih

/-- Witness for C6: the bound holds at the concrete state reached by
initializing and enqueuing one delete. -/
theorem inprogress_bounded_witness :
    (enqueueOp (initState benchIndex 0 5) benchDelete).inprogress.length ≤
      (enqueueOp (initState benchIndex 0 5) benchDelete).concurrency_limit :=
  inprogress_bounded _
    (QReachable.step (QReachable.init benchIndex 0 5)
      (QStep.enqueue benchDelete))

/-! ## C4 — promotion considers the head only -/

/-- C4: `next_ready` considers the Pending Queue from the front and only
ever returns its head; whenever the head conflicts with some in-progress
Task, nothing is returned — no later Operation is promoted, even an
unblocked one, preserving submission order. -/
theorem next_ready_head_or_nothing :
    (∀ (st : QueueState) (op : UploadOp), next_ready st = some op →
      st.pending.head? = some op) ∧
    (∀ (st : QueueState) (op : UploadOp) (rest : List UploadOp),
      st.pending = op :: rest →
      (∃ t ∈ st.inprogress, opConflictsTask op t = true) →
      next_ready st = none) := by
  constructor
  · intro st op hn
    unfold next_ready at hn
    split at hn
    next heq => exact absurd hn (by simp)
    next hd rest heq =>
      split at hn
      next hr =>
        cases hn
        rw [heq]
        rfl
      next => exact absurd hn (by simp)
  · intro st op rest hpend hconf
    have hnr : isReady op st.inprogress = false := by
      rw [Bool.eq_false_iff]
      intro hr
      obtain ⟨t, ht, hc⟩ := hconf
      have := (isReady_iff op st.inprogress).mp hr t ht
      rw [this] at hc
      exact Bool.false_ne_true hc
    unfold next_ready
    rw [hpend]
    simp [hnr]

/-- Witness for C4: with an upload of layer 1 in progress, the pending
head — a delete of layer 1 — is blocked and `next_ready` returns nothing,
although the operation behind it (an upload of layer 9) is unblocked; on
the benchmark queue the returned operation is the head. -/
theorem next_ready_head_or_nothing_witness :
    next_ready blockedQueue = none ∧
    (benchQueue 2).pending.head? = some (.uploadMetadata benchIndex) :=
  ⟨next_ready_head_or_nothing.2 blockedQueue
      (.delete { layers := [(1, benchMetadata)] })
      [.uploadLayer 9 benchMetadata] rfl
      ⟨blockedTask, by decide, by decide⟩,
   next_ready_head_or_nothing.1 (benchQueue 2) (.uploadMetadata benchIndex)
      (by decide)⟩

/-! ## C5 — disjoint metadata uploads are ready -/

/-- C5: an `UploadMetadata` at the head of the Pending Queue whose
snapshot references only layer names disjoint from the names touched by
every in-progress Task (primary and coalesced operations alike) is
returned by `next_ready`, regardless of how many Tasks are in progress. -/
theorem metadata_disjoint_ready (st : QueueState) (S : ManifestSnapshot)
    (rest : List UploadOp)
    (hpend : st.pending = .uploadMetadata S :: rest)
    (hdisj : ∀ t ∈ st.inprogress,
      ∀ n ∈ (UploadOp.uploadMetadata S).touchedNames,
        n ∉ t.op.touchedNames ∧ ∀ c ∈ t.coalesced_ops, n ∉ c.touchedNames) :
    next_ready st = some (.uploadMetadata S) := by
  have hready : isReady (.uploadMetadata S) st.inprogress = true := by
    rw [isReady_iff]
    intro t ht
    rw [opConflictsTask_eq_false_iff]
    constructor
    · rw [Bool.eq_false_iff]
      intro hc
      obtain ⟨n, hn1, hn2⟩ := (conflictsB_iff _ _).mp hc
      exact (hdisj t ht n hn1).1 hn2
    · intro c hc
      rw [Bool.eq_false_iff]
      intro hcf
      obtain ⟨n, hn1, hn2⟩ := (conflictsB_iff _ _).mp hcf
      exact (hdisj t ht n hn1).2 c hc hn2
  unfold next_ready
  rw [hpend]
  simp [hready]

/-- Witness for C5, at the benchmark's largest case
(src/upload_queue.rs line 38): with 1,000,000 in-progress deletions of
layer 1, the index upload referencing only layer 0 is ready. -/
theorem metadata_disjoint_ready_witness :
    next_ready (benchQueue 1000000) = some (.uploadMetadata benchIndex) := by
  refine metadata_disjoint_ready (benchQueue 1000000) benchIndex [] rfl ?_
  intro t ht n hn
  simp only [benchQueue] at ht
  obtain ⟨i, hi, rfl⟩ := List.mem_map.mp ht
  simp only [benchIndex, UploadOp.touchedNames, benchMetadata,
    List.map_cons, List.map_nil, List.mem_singleton] at hn
  subst hn
  constructor
  · simp [benchDeleteTask, benchDelete, UploadOp.touchedNames]
  · intro c hc
    simp [benchDeleteTask] at hc

/-! ## C3 — the Manifest Snapshot never regresses -/

/-- One scheduling step never lowers the originating-task-id measure of
the held Manifest Snapshot, and any step that changes the snapshot is the
successful completion of an in-progress metadata-upload Task whose task id
is at least the current measure (hence strictly newer than the snapshot's
originating task id). -/
theorem qstep_manifest {st st' : QueueState} (h : QStep st st') :
    metaMeasure st ≤ metaMeasure st' ∧
    (st'.manifest ≠ st.manifest →
      metaMeasure st < metaMeasure st' ∧
      ∃ t ∈ st.inprogress, t.op = .uploadMetadata st'.manifest ∧
        metaMeasure st ≤ t.task_id) := by
  cases h with
  | enqueue op => exact ⟨le_refl _, fun hne => absurd rfl hne⟩
  | promoteStep hcap hp =>
    obtain ⟨op, rest, hpend, hready, ht, hst⟩ := promote_inv hp
    subst hst
    exact ⟨le_refl _, fun hne => absurd rfl hne⟩
  | complete t hmem =>
    rcases completeTask_manifest st t with ⟨hm, hid⟩ | ⟨S, htop, hle, hm, hid⟩
    · have hmm : metaMeasure (completeTask st t) = metaMeasure st := by
        unfold metaMeasure
        rw [hid]
      rw [hmm, hm]
      exact ⟨le_refl _, fun hne => absurd rfl hne⟩
    · have hmm : metaMeasure (completeTask st t) = t.task_id + 1 := by
        unfold metaMeasure
        rw [hid]
      constructor
      · rw [hmm]
        omega
      · intro hne
        refine ⟨by rw [hmm]; omega, t, hmem, ?_, hle⟩
        rw [hm]
        exact htop

/-- C3: the queue's Manifest Snapshot is never regressed. A single step
replaces it only through the successful completion of an in-progress
`UploadMetadata` Task whose task id is at least the held snapshot's
originating measure, and along every execution (any sequence of scheduling
steps) the originating-task-id measure is non-decreasing — strictly
increasing whenever the snapshot actually changed — even when an older
metadata task's completion is reported after a newer one's. -/
theorem manifest_never_regressed :
    (∀ st st' : QueueState, QStep st st' → st'.manifest ≠ st.manifest →
      ∃ t ∈ st.inprogress, t.op = .uploadMetadata st'.manifest ∧
        metaMeasure st ≤ t.task_id) ∧
    (∀ st st' : QueueState, Relation.ReflTransGen QStep st st' →
      metaMeasure st ≤ metaMeasure st' ∧
      (st'.manifest ≠ st.manifest → metaMeasure st < metaMeasure st')) := by
  constructor
  · intro st st' h hne
    exact ((qstep_manifest h).2 hne).2
  · intro st st' h
    induction h with
    | refl => exact ⟨le_refl _, fun hne => absurd rfl hne⟩
    | tail hsteps hstep ih =>
      rename_i mid fin
      obtain ⟨hle1, hstrict1⟩ := ih
      obtain ⟨hle2, hstrict2⟩ := qstep_manifest hstep
      refine ⟨le_trans hle1 hle2, ?_⟩
      intro hne
      by_cases hmid : fin.manifest = mid.manifest
      · have : mid.manifest ≠ st.manifest := fun he => hne (hmid.trans he)
        exact lt_of_lt_of_le (hstrict1 this) hle2
      · exact lt_of_le_of_lt hle1 (hstrict2 hmid).1

/-- Witness for C3: completing the in-flight metadata Task of `metaQueue`
advances the snapshot (to `freshIndex`), and the originating measure does
not decrease across that concrete execution. -/
theorem manifest_never_regressed_witness :
    (∃ t ∈ metaQueue.inprogress,
      t.op = .uploadMetadata (completeTask metaQueue metaTask).manifest ∧
      metaMeasure metaQueue ≤ t.task_id) ∧
    metaMeasure metaQueue ≤ metaMeasure (completeTask metaQueue metaTask) :=
  ⟨manifest_never_regressed.1 metaQueue (completeTask metaQueue metaTask)
      (QStep.complete metaTask (by decide)) (by decide),
   (manifest_never_regressed.2 metaQueue (completeTask metaQueue metaTask)
      (Relation.ReflTransGen.single (QStep.complete metaTask (by decide)))).1⟩

/-! ## C7 — initialization accepted exactly once -/

/-- C7: initializing an already-Initialized queue fails with
`AlreadyInitialized` and mutates nothing — the resulting queue is exactly
the previous one, so pending, in-progress, manifest and the task-id
counter are all unchanged. -/
theorem reinitialize_rejected (st : QueueState) (index : ManifestSnapshot)
    (startId lim : Nat) :
    initialize_with_current_remote_index_part (.initialized st) index
        startId lim =
      (some .alreadyInitialized, .initialized st) :=
  rfl

/-! ## C8 — shutdown is idempotent -/

/-- C8: `shutdown` is idempotent — from every queue state two shutdown
requests produce the same state as one, and repeated requests while
ShuttingDown or Shutdown are no-ops. -/
theorem shutdown_idempotent :
    (∀ q : UploadQueue, shutdown (shutdown q) = shutdown q) ∧
    (∀ st : QueueState, shutdown (.shuttingDown st) = .shuttingDown st) ∧
    shutdown .stopped = .stopped := by
  refine ⟨?_, fun st => rfl, rfl⟩
  intro q
  cases q with
  | uninitialized => rfl
  | initialized st =>
    by_cases he : st.inprogress.isEmpty
    · simp [shutdown, he]
    · simp [shutdown, he]
  | shuttingDown st => rfl
  | stopped => rfl

/-! ## C1 — draining refines sequential application -/

/-- The sequential semantics act componentwise on the manifest and the
object set. -/
theorem seqRun_pair (ops : List UploadOp) (m : ManifestSnapshot)
    (objs : List LayerName) :
    seqRun (m, objs) ops =
      (ops.foldl applyOpManifest m, ops.foldl applyOpObjects objs) := by
  induction ops generalizing m objs with
  | nil => rfl
  | cons op rest ih =>
    show seqRun (applyOpManifest m op, applyOpObjects objs op) rest = _
    rw [ih]
    rfl

/-- Deletes never move the manifest. -/
theorem foldl_applyOpManifest_deletes (l : List UploadOp)
    (m : ManifestSnapshot) (h : ∀ c ∈ l, c.isDelete = true) :
    l.foldl applyOpManifest m = m := by
  induction l generalizing m with
  | nil => rfl
  | cons c rest ih =>
    have hc := h c (List.mem_cons_self c rest)
    have hstep : applyOpManifest m c = m := by
      cases c
      · rfl
      · simp [UploadOp.isDelete] at hc
      · rfl
    rw [List.foldl_cons, hstep]
    exact ih m (fun x hx => h x (List.mem_cons_of_mem c hx))

/-- Promotion on an empty Pending Queue yields nothing. -/
theorem promote_nil {st : QueueState} (hpend : st.pending = []) :
    promote st = none := by
  unfold promote
  rw [hpend]

/-- Promotion on a ready head yields exactly the coalesced Task and the
updated state. -/
theorem promote_cons {st : QueueState} {op : UploadOp}
    {rest : List UploadOp} (hpend : st.pending = op :: rest)
    (hready : isReady op st.inprogress = true) :
    promote st = some (promotedTask st op rest,
      { st with pending := (coalesceOps op rest st.inprogress).2,
                inprogress := st.inprogress ++ [promotedTask st op rest],
                next_task_id := st.next_task_id + 1 }) := by
  unfold promote
  rw [hpend]
  simp [hready]

/-- Enqueueing a sequence appends it to the Pending Queue and changes
nothing else. -/
theorem enqueueAll_pending (st : QueueState) (ops : List UploadOp) :
    enqueueAll st ops = { st with pending := st.pending ++ ops } := by
  induction ops generalizing st with
  | nil =>
    show st = _
    rw [List.append_nil]
  | cons op rest ih =>
    show enqueueAll (enqueueOp st op) rest = _
    rw [ih]
    simp [enqueueOp, List.append_assoc]

/-- Unfolding one drain step on a successful promotion. -/
theorem drainAux_step {fuel : Nat} {st st' : QueueState} {t : UploadTask}
    (objs : List LayerName) (hp : promote st = some (t, st')) :
    drainAux (fuel + 1) st objs =
      drainAux fuel (completeTask st' t) (applyTaskObjects objs t) := by
  rw [drainAux, hp]

/-- Main drain invariant: from a state with nothing in flight and a fresh
id counter, draining with enough fuel applies exactly the pending
Operations, in order, to the manifest and the object set, and empties
both the Pending Queue and the In-Progress Table. -/
theorem drainAux_spec (fuel : Nat) :
    ∀ (st : QueueState) (objs : List LayerName),
      st.inprogress = [] → metaMeasure st ≤ st.next_task_id →
      st.pending.length ≤ fuel →
      (drainAux fuel st objs).1.manifest =
          st.pending.foldl applyOpManifest st.manifest ∧
      (drainAux fuel st objs).2 = st.pending.foldl applyOpObjects objs ∧
      (drainAux fuel st objs).1.pending = [] ∧
      (drainAux fuel st objs).1.inprogress = [] := by
  induction fuel with
  | zero =>
    intro st objs hip hmm hlen
    have hpend : st.pending = [] :=
      List.eq_nil_of_length_eq_zero (Nat.le_zero.mp hlen)
    rw [drainAux, hpend]
    exact ⟨rfl, rfl, rfl, hip⟩
  | succ fuel ih =>
    intro st objs hip hmm hlen
    rcases hpend : st.pending with _ | ⟨op, rest⟩
    · rw [drainAux, promote_nil hpend, hpend]
      exact ⟨rfl, rfl, rfl, hip⟩
    · have hready : isReady op st.inprogress = true := by
        rw [hip]
        rfl
      have hpr := promote_cons hpend hready
      rw [drainAux_step objs hpr]
      set co1 := (coalesceOps op rest st.inprogress).1 with hco1
      set co2 := (coalesceOps op rest st.inprogress).2 with hco2
      set task := promotedTask st op rest with htask
      set st' : QueueState :=
        { st with pending := co2,
                  inprogress := st.inprogress ++ [task],
                  next_task_id := st.next_task_id + 1 } with hst'
      have hsplit : co1 ++ co2 = rest := coalesceOps_append op rest st.inprogress
      have hlen2 : co2.length ≤ fuel := by
        have h1 : co1.length + co2.length = rest.length := by
          rw [← List.length_append, hsplit]
        have h2 : st.pending.length ≤ fuel + 1 := hlen
        rw [hpend] at h2
        simp only [List.length_cons] at h2
        omega
      set st'' := completeTask st' task with hst''
      have hfields := completeTask_fields st' task
      have hip'' : st''.inprogress = [] := by
        rw [hst'', hfields.2.2.2, hst']
        simp [hip]
      have hpend'' : st''.pending = co2 := hfields.1
      have hnid'' : st''.next_task_id = st.next_task_id + 1 := hfields.2.1
      have hobjs : applyTaskObjects objs task =
          (op :: co1).foldl applyOpObjects objs := rfl
      have hman : st''.manifest = (op :: co1).foldl applyOpManifest st.manifest ∧
          metaMeasure st'' ≤ st''.next_task_id := by
        rcases hop : op with ⟨name, metadata⟩ | S | d
        · have hco1nil : co1 = [] := by rw [hco1, hop]; rfl
          have hthis : st'' = { st' with
              inprogress := st'.inprogress.filter
                (fun u => u.task_id != task.task_id) } := by
            rw [hst'']
            unfold completeTask
            rw [htask]
            simp [promotedTask, hop]
          rw [hthis, hco1nil]
          constructor
          · rfl
          · show metaMeasure st ≤ st.next_task_id + 1
            exact le_trans hmm (Nat.le_succ _)
        · have hco1nil : co1 = [] := by rw [hco1, hop]; rfl
          have hcond : metaMeasure st' ≤ st.next_task_id := hmm
          have hthis : st'' = { st' with
              inprogress := st'.inprogress.filter
                (fun u => u.task_id != task.task_id),
              manifest := S, manifestTaskId := some task.task_id } := by
            rw [hst'']
            unfold completeTask
            rw [htask]
            simp [promotedTask, hop, hcond]
          rw [hthis, hco1nil]
          constructor
          · rfl
          · show st.next_task_id + 1 ≤ st.next_task_id + 1
            exact le_refl _
        · have hthis : st'' = { st' with
              inprogress := st'.inprogress.filter
                (fun u => u.task_id != task.task_id) } := by
            rw [hst'']
            unfold completeTask
            rw [htask]
            simp [promotedTask, hop]
          rw [hthis]
          constructor
          · show st.manifest = _
            rw [List.foldl_cons]
            have hdel : ∀ c ∈ co1, c.isDelete = true := by
              intro c hc
              rw [hco1] at hc
              exact coalesced_isDelete hc
            exact (foldl_applyOpManifest_deletes co1 st.manifest hdel).symm
          · show metaMeasure st ≤ st.next_task_id + 1
            exact le_trans hmm (Nat.le_succ _)
      obtain ⟨ihman, ihobjs, ihpend, ihip⟩ :=
        ih st'' (applyTaskObjects objs task) hip''
          (hman.2) (by rw [hpend'']; exact hlen2)
      refine ⟨?_, ?_, ihpend, ihip⟩
      · rw [ihman, hpend'', hman.1, ← hsplit, ← List.cons_append,
          List.foldl_append]
      · rw [ihobjs, hpend'', hobjs, ← hsplit, ← List.cons_append,
          List.foldl_append]

/-- C1: for every sequence of Operations enqueued into a freshly
Initialized queue, draining — repeatedly promoting and applying the
promoted Task's completion, with no concurrent promotion, until Pending
and In-Progress are empty — yields the same final Manifest Snapshot and
the same final remote object set as applying the Operations sequentially
in enqueue order; coalesced Tasks apply their primary and coalesced
operations in their original relative order. -/
theorem drain_refines_sequential (ops : List UploadOp)
    (index : ManifestSnapshot) (startId lim : Nat) (objs : List LayerName) :
    (drain (enqueueAll (initState index startId lim) ops) objs).1.manifest
        = (seqRun (index, objs) ops).1 ∧
    (drain (enqueueAll (initState index startId lim) ops) objs).2
        = (seqRun (index, objs) ops).2 ∧
    (drain (enqueueAll (initState index startId lim) ops) objs).1.pending
        = [] ∧
    (drain (enqueueAll (initState index startId lim) ops) objs).1.inprogress
        = [] := by
  have hq : enqueueAll (initState index startId lim) ops =
      { pending := ops, inprogress := [], next_task_id := startId,
        manifest := index, manifestTaskId := none,
        concurrency_limit := lim } := by
    rw [enqueueAll_pending]
    rfl
  rw [hq]
  obtain ⟨h1, h2, h3, h4⟩ := drainAux_spec ops.length
    { pending := ops, inprogress := [], next_task_id := startId,
      manifest := index, manifestTaskId := none, concurrency_limit := lim }
    objs rfl (Nat.zero_le _) (le_refl _)
  rw [seqRun_pair]
  exact ⟨h1, h2, h3, h4⟩

end Neon
